import Mathlib

/-!
Verification of the autotunchi deployment-orchestration pipeline.

Shallow embedding of the TypeScript sources:
* `src/lib/github/webhooks.ts` — `verifyWebhookSignature`, `parsePushEvent`,
  `extractBranchFromRef`
* `src/app/api/webhooks/github/route.ts` — webhook `POST` handler
* `src/lib/deploy/worker.ts` — `processDeployment`
* `src/lib/builder/index.ts` — `buildProject`
* `src/server/routers/deployments.ts` — `cancel`, `rollback`
* `src/server/routers/projects.ts` — `triggerDeploy`
* `src/lib/k8s/metrics.ts` — `parseResourceValue`

External library primitives (Node `crypto` HMAC, the database, subprocesses,
the Pulumi/Cloudflare/GitHub APIs) are modelled as explicit parameters or
oracle records; everything the repository itself computes is translated
definitionally from the source.
-/

/-! ## Node `Buffer`/hex and `crypto.timingSafeEqual` primitives -/

/-- Lowercase hex digit used by `digest("hex")` (JS `Number.toString(16)`
digit alphabet: `0`-`9` then `a`-`f`). -/
def hexDigitChar (n : Nat) : Char :=
  if n < 10 then Char.ofNat (48 + n) else Char.ofNat (87 + n)

/-- Hex encoding of a byte list, two lowercase digits per byte
(Node `Buffer.toString("hex")` / `Hmac.digest("hex")`). -/
def hexCharsOfBytes : List Nat → List Char
  | [] => []
  | b :: bs => hexDigitChar (b / 16) :: hexDigitChar (b % 16) :: hexCharsOfBytes bs

/-- Hex digest string of a byte list. -/
def hexEncode (bytes : List Nat) : String := ⟨hexCharsOfBytes bytes⟩

/-- Value of one hex character; Node's hex decoder accepts both cases. -/
def hexCharVal (c : Char) : Option Nat :=
  if '0' ≤ c ∧ c ≤ '9' then some (c.toNat - 48)
  else if 'a' ≤ c ∧ c ≤ 'f' then some (c.toNat - 87)
  else if 'A' ≤ c ∧ c ≤ 'F' then some (c.toNat - 55)
  else none

/-- Node `Buffer.from(s, "hex")`: decode hex pairs left to right and stop at
the first invalid character or at a trailing unpaired character. -/
def jsHexDecodeAux : List Char → List Nat
  | c1 :: c2 :: rest =>
    match hexCharVal c1, hexCharVal c2 with
    | some h, some l => (16 * h + l) :: jsHexDecodeAux rest
    | _, _ => []
  | _ => []

/-- Node `Buffer.from(s, "hex")` on a Lean string. -/
def jsHexDecode (s : String) : List Nat := jsHexDecodeAux s.toList

/-- Node `crypto.timingSafeEqual`: throws (`Except.error`) when the two
buffers have different lengths, otherwise compares the bytes. -/
def timingSafeEqual (a b : List Nat) : Except Unit Bool :=
  if a.length ≠ b.length then Except.error () else Except.ok (a = b)

/-- JS `String.prototype.split` with the one-character separator `"="`,
on the character list of the string. -/
def splitEqAux : List Char → List (List Char)
  | [] => [[]]
  | c :: rest =>
    if c = '=' then [] :: splitEqAux rest
    else
      match splitEqAux rest with
      | [] => [[c]]
      | t :: ts => (c :: t) :: ts

/-- JS `signature.split("=")`. -/
def jsSplitEq (s : String) : List String :=
  (splitEqAux s.toList).map (fun l => (⟨l⟩ : String))

/-! ## `verifyWebhookSignature` (src/lib/github/webhooks.ts)

The HMAC-SHA256 primitive (`crypto.createHmac("sha256", secret)
.update(payload).digest(...)`) is an external library call; it is passed in
as a function `hmac : String → String → List Nat` producing the digest
bytes of `(secret, payload)`.  `digest("hex")` is `hexEncode` of those
bytes.  The JS `try/catch` around `timingSafeEqual` is the `Except` match:
a thrown error yields `false`, so the embedded function is total. -/

/-- Translation of `verifyWebhookSignature(payload, signature, secret)`. -/
def verifyWebhookSignature (hmac : String → String → List Nat)
    (payload : String) (signature : Option String) (secret : String) : Bool :=
  match signature with
  | none => false
  | some sig =>
    let parts := jsSplitEq sig
    if parts.length ≠ 2 ∨ parts.getD 0 "" ≠ "sha256" then false
    else
      let expectedSignature := hexEncode (hmac secret payload)
      let providedSignature := parts.getD 1 ""
      match timingSafeEqual (jsHexDecode expectedSignature)
          (jsHexDecode providedSignature) with
      | Except.ok b => b
      | Except.error _ => false

/-! ### Hex/split lemmas -/

theorem hexDigitChar_of_lt (n : Nat) (h : n < 16) :
    hexCharVal (hexDigitChar n) = some n ∧ hexDigitChar n ≠ '=' := by
  have key : ∀ i : Fin 16,
      hexCharVal (hexDigitChar i.val) = some i.val ∧ hexDigitChar i.val ≠ '=' := by
    decide
  exact key ⟨n, h⟩

theorem eq_not_mem_hexChars (bytes : List Nat) (hb : ∀ b ∈ bytes, b < 256) :
    '=' ∉ hexCharsOfBytes bytes := by
  induction bytes with
  | nil => simp [hexCharsOfBytes]
  | cons b bs ih =>
    have hblt : b < 256 := hb b (List.mem_cons_self b bs)
    have h1 : b / 16 < 16 := Nat.div_lt_of_lt_mul (by omega)
    have h2 : b % 16 < 16 := Nat.mod_lt _ (by omega)
    have ihs := ih (fun x hx => hb x (List.mem_cons_of_mem _ hx))
    simp only [hexCharsOfBytes, List.mem_cons]
    push_neg
    exact ⟨Ne.symm (hexDigitChar_of_lt _ h1).2, Ne.symm (hexDigitChar_of_lt _ h2).2, ihs⟩

theorem jsHexDecodeAux_hexChars (bytes : List Nat) (hb : ∀ b ∈ bytes, b < 256) :
    jsHexDecodeAux (hexCharsOfBytes bytes) = bytes := by
  induction bytes with
  | nil => rfl
  | cons b bs ih =>
    have hblt : b < 256 := hb b (List.mem_cons_self b bs)
    have h1 : b / 16 < 16 := Nat.div_lt_of_lt_mul (by omega)
    have h2 : b % 16 < 16 := Nat.mod_lt _ (by omega)
    have ihs := ih (fun x hx => hb x (List.mem_cons_of_mem _ hx))
    simp [hexCharsOfBytes, jsHexDecodeAux,
      (hexDigitChar_of_lt _ h1).1, (hexDigitChar_of_lt _ h2).1, ihs,
      Nat.div_add_mod]

theorem splitEqAux_ne_nil (l : List Char) : splitEqAux l ≠ [] := by
  induction l with
  | nil => simp [splitEqAux]
  | cons c rest ih =>
    simp only [splitEqAux]
    split
    · simp
    · cases h : splitEqAux rest with
      | nil => simp
      | cons t ts => simp

theorem splitEqAux_no_sep (l : List Char) (h : '=' ∉ l) : splitEqAux l = [l] := by
  induction l with
  | nil => rfl
  | cons c rest ih =>
    have hc : c ≠ '=' := by intro hc; exact h (hc ▸ List.mem_cons_self c rest)
    have hr : '=' ∉ rest := fun hm => h (List.mem_cons_of_mem _ hm)
    simp only [splitEqAux, if_neg hc, ih hr]

theorem splitEqAux_append_sep (l₁ l₂ : List Char) (h : '=' ∉ l₁) :
    splitEqAux (l₁ ++ '=' :: l₂) = l₁ :: splitEqAux l₂ := by
  induction l₁ with
  | nil => simp [splitEqAux]
  | cons c rest ih =>
    have hc : c ≠ '=' := by intro hc; exact h (hc ▸ List.mem_cons_self c rest)
    have hr : '=' ∉ rest := fun hm => h (List.mem_cons_of_mem _ hm)
    simp only [List.cons_append, splitEqAux, if_neg hc, List.append_eq]
    rw [ih hr]

theorem splitEqAux_length (l : List Char) :
    (splitEqAux l).length = l.count '=' + 1 := by
  induction l with
  | nil => simp [splitEqAux]
  | cons c rest ih =>
    simp only [splitEqAux]
    by_cases hc : c = '='
    · subst hc; simp [List.count_cons, ih]
    · have hne := splitEqAux_ne_nil rest
      cases h : splitEqAux rest with
      | nil => exact absurd h hne
      | cons t ts => simp [List.count_cons, hc, ← ih, h]

theorem string_toList_append (a b : String) :
    (a ++ b).toList = a.toList ++ b.toList := by
  cases a; cases b; rfl

theorem jsSplitEq_sha256_append (p : String) (hp : '=' ∉ p.toList) :
    jsSplitEq ("sha256=" ++ p) = ["sha256", p] := by
  obtain ⟨data⟩ := p
  have h2 : '=' ∉ "sha256".toList := by decide
  unfold jsSplitEq
  have h1 : ("sha256=" ++ String.mk data).toList = "sha256".toList ++ '=' :: data := by
    rw [string_toList_append]; rfl
  rw [h1, splitEqAux_append_sep _ _ h2, splitEqAux_no_sep data hp]
  rfl

theorem jsHexDecode_hexEncode (bytes : List Nat) (hb : ∀ b ∈ bytes, b < 256) :
    jsHexDecode (hexEncode bytes) = bytes :=
  jsHexDecodeAux_hexChars bytes hb

/-- Claim C1: for every secret and raw body, verification of the header
`"sha256=" ++ hex(HMAC-SHA256(secret, body))` succeeds; a missing header, a
header that is not exactly two `=`-separated parts with first part
`"sha256"`, or a supplied digest differing from the computed digest in
length or in any byte all yield `false`.  The embedded function is total
(`Bool`-valued): the JS `try/catch` around `timingSafeEqual` is modelled by
the `Except` match, so no execution path throws. -/
theorem claim_c1_verifyWebhookSignature
    (hmac : String → String → List Nat) (secret payload : String)
    (hb : ∀ b ∈ hmac secret payload, b < 256) :
    verifyWebhookSignature hmac payload
        (some ("sha256=" ++ hexEncode (hmac secret payload))) secret = true
    ∧ verifyWebhookSignature hmac payload none secret = false
    ∧ (∀ sig : String,
        (jsSplitEq sig).length ≠ 2 ∨ (jsSplitEq sig).getD 0 "" ≠ "sha256" →
        verifyWebhookSignature hmac payload (some sig) secret = false)
    ∧ (∀ p : String, jsHexDecode p ≠ hmac secret payload →
        verifyWebhookSignature hmac payload (some ("sha256=" ++ p)) secret = false) := by
  have hexmem : '=' ∉ (hexEncode (hmac secret payload)).toList :=
    eq_not_mem_hexChars _ hb
  refine ⟨?_, rfl, ?_, ?_⟩
  · simp [verifyWebhookSignature, jsSplitEq_sha256_append _ hexmem,
      timingSafeEqual, List.getD]
  · intro sig h
    simp only [verifyWebhookSignature]
    rw [if_pos h]
  · intro p hne
    by_cases hp : '=' ∈ p.toList
    · have hlen : (jsSplitEq ("sha256=" ++ p)).length ≠ 2 := by
        unfold jsSplitEq
        rw [List.length_map, splitEqAux_length, string_toList_append,
          List.count_append]
        have h1 : ("sha256=".toList).count '=' = 1 := by decide
        have h2 : 0 < (p.toList).count '=' := List.count_pos_iff.mpr hp
        omega
      simp only [verifyWebhookSignature]
      rw [if_pos (Or.inl hlen)]
    · simp only [verifyWebhookSignature, jsSplitEq_sha256_append _ hp]
      have hexp : jsHexDecode (hexEncode (hmac secret payload)) = hmac secret payload :=
        jsHexDecode_hexEncode _ hb
      simp only [List.getD, hexp, timingSafeEqual]
      by_cases hl : (hmac secret payload).length = (jsHexDecode p).length
      · simp [hl, Ne.symm hne]
      · simp [hl]

/-- Example HMAC primitive used to instantiate the C1 theorem. -/
def c1HmacEx : String → String → List Nat := fun _ _ => [0, 27, 255, 128]

/-- Witness for C1 at a concrete HMAC primitive, secret, payload, a
malformed header and a wrong digest. -/
theorem claim_c1_witness :
    verifyWebhookSignature c1HmacEx "payload"
        (some ("sha256=" ++ hexEncode (c1HmacEx "secret" "payload"))) "secret" = true
    ∧ verifyWebhookSignature c1HmacEx "payload" none "secret" = false
    ∧ verifyWebhookSignature c1HmacEx "payload" (some "bogus") "secret" = false
    ∧ verifyWebhookSignature c1HmacEx "payload" (some "sha256=00") "secret" = false := by
  have hb : ∀ b ∈ c1HmacEx "secret" "payload", b < 256 := by
    intro b hbm
    simp only [c1HmacEx] at hbm
    fin_cases hbm <;> omega
  obtain ⟨h1, h2, h3, h4⟩ :=
    claim_c1_verifyWebhookSignature c1HmacEx "secret" "payload" hb
  refine ⟨h1, h2, h3 "bogus" ?_, h4 "00" ?_⟩
  · left; decide
  · decide

/-! ## JS value model for `parsePushEvent` (src/lib/github/webhooks.ts)

`parsePushEvent` receives `JSON.parse` output and navigates it with plain
property accesses and TypeScript casts (which perform no runtime check), so
the embedding works on a dynamic JS value.  Property access on `null` /
`undefined` throws a `TypeError`; on any other value it yields the field or
`undefined`. -/

inductive JsValue where
  | undefV
  | nullV
  | boolV (b : Bool)
  | numV (n : Int)
  | strV (s : String)
  | arrV (elems : List JsValue)
  | objV (fields : List (String × JsValue))

/-- JS truthiness (`!x` is the negation of this). -/
def jsTruthy : JsValue → Bool
  | .undefV => false
  | .nullV => false
  | .boolV b => b
  | .numV n => n != 0
  | .strV s => s ≠ ""
  | .arrV _ => true
  | .objV _ => true

/-- JS `typeof x === "object"` (true for objects, arrays and `null`). -/
def jsTypeofObject : JsValue → Bool
  | .nullV => true
  | .arrV _ => true
  | .objV _ => true
  | _ => false

/-- JS `x === null || x === undefined` (the values whose property access
throws). -/
def jsNullish : JsValue → Bool
  | .undefV => true
  | .nullV => true
  | _ => false

/-- Non-throwing property read: the named field of an object, `undefined`
otherwise.  Used where the base is already known to be non-nullish. -/
def jsGetField : JsValue → String → JsValue
  | .objV fields, k =>
    match fields.find? (fun kv => kv.1 = k) with
    | some kv => kv.2
    | none => .undefV
  | _, _ => .undefV

/-- Property read that throws (`Except.error`) on a nullish base, as JS
does. -/
def jsAccess (v : JsValue) (k : String) : Except Unit JsValue :=
  if jsNullish v then Except.error () else Except.ok (jsGetField v k)

/-- The event value `parsePushEvent` builds: each field holds whatever the
unchecked TypeScript casts produced (possibly `undefined`). -/
structure PushEventJs where
  ref : JsValue
  after : JsValue
  repositoryFullName : JsValue
  headCommit : Option (JsValue × JsValue)
  pusherName : JsValue
  pusherEmail : JsValue

/-- Translation of `parsePushEvent(payload)`.  `Except.error` is a thrown
`TypeError`; `Except.ok none` is the JS `null` return. -/
def parsePushEvent (payload : JsValue) : Except Unit (Option PushEventJs) :=
  if !jsTruthy payload || !jsTypeofObject payload then Except.ok none
  else
    if !jsTruthy (jsGetField payload "ref") || !jsTruthy (jsGetField payload "after")
        || !jsTruthy (jsGetField payload "repository") then Except.ok none
    else
      let fullName := jsGetField (jsGetField payload "repository") "full_name"
      let headCommit :=
        if jsTruthy (jsGetField payload "head_commit") then
          some (jsGetField (jsGetField payload "head_commit") "id",
            jsGetField (jsGetField payload "head_commit") "message")
        else none
      match jsAccess (jsGetField payload "pusher") "name",
          jsAccess (jsGetField payload "pusher") "email" with
      | Except.ok n, Except.ok e =>
        Except.ok (some
          { ref := jsGetField payload "ref"
            after := jsGetField payload "after"
            repositoryFullName := fullName
            headCommit := headCommit
            pusherName := n
            pusherEmail := e })
      | _, _ => Except.error ()

/-- JS line-terminator class (not matched by `.` in a regex without the `s`
flag). -/
def jsLineTerminator (c : Char) : Bool :=
  c = '\n' || c = '\r' || c.toNat == 8232 || c.toNat == 8233

/-- Translation of `extractBranchFromRef(ref)`: the JS regex
`^refs\x2fheads\x2f(.+)$` applied to `ref`, yielding the captured branch or
`null`. -/
def extractBranchFromRef (ref : String) : Option String :=
  let chars := ref.toList
  let rest := chars.drop 11
  if chars.take 11 = "refs/heads/".toList ∧ rest ≠ []
      ∧ rest.all (fun c => !jsLineTerminator c) then
    some ⟨rest⟩
  else none

/-- The condition under which `parsePushEvent` actually returns `null`:
payload not a truthy object, or a falsy `ref`, `after` or `repository`
field (note: `repository`, not `repository.full_name`). -/
def parseGuardFails (p : JsValue) : Bool :=
  !jsTruthy p || !jsTypeofObject p || !jsTruthy (jsGetField p "ref")
    || !jsTruthy (jsGetField p "after") || !jsTruthy (jsGetField p "repository")

/-- Payload with `ref`, `after` and `repository` present but no
`repository.full_name` and no `pusher`. -/
def c8CexPayload : JsValue :=
  JsValue.objV [("ref", JsValue.strV "refs/heads/main"),
    ("after", JsValue.strV "abc123"), ("repository", JsValue.objV [])]

/-- Counterexample to C8: on a decoded payload whose `ref` and `after` are
present and truthy but whose `repository.full_name` is absent, the claim
says `parsePushEvent` signals invalid by returning `null` and never throws;
the code instead throws a `TypeError` (dereferencing the absent `pusher`),
so it is not total and does not return `null`. -/
theorem claim_c8_counterexample :
    jsTruthy (jsGetField c8CexPayload "ref") = true
    ∧ jsTruthy (jsGetField c8CexPayload "after") = true
    ∧ jsGetField (jsGetField c8CexPayload "repository") "full_name" = JsValue.undefV
    ∧ parsePushEvent c8CexPayload = Except.error ()
    ∧ (Except.error () : Except Unit (Option PushEventJs)) ≠ Except.ok none := by
  refine ⟨by decide, by decide, by rfl, by rfl, by simp⟩

/-- Claim C8 (amended): `parsePushEvent` returns `null` exactly when the
payload is not a truthy object or one of `ref`, `after`, `repository` is
absent/falsy — `repository.full_name` itself is never validated; when those
guards pass it throws exactly when `pusher` is absent (nullish), and
otherwise returns the canonical event. -/
theorem claim_c8_parsePushEvent (p : JsValue) :
    (parsePushEvent p = Except.ok none ↔ parseGuardFails p = true)
    ∧ (parsePushEvent p = Except.error () ↔
        parseGuardFails p = false ∧ jsNullish (jsGetField p "pusher") = true)
    ∧ ((∃ ev, parsePushEvent p = Except.ok (some ev)) ↔
        parseGuardFails p = false ∧ jsNullish (jsGetField p "pusher") = false) := by
  cases h1 : jsTruthy p <;> cases h2 : jsTypeofObject p <;>
    cases h3 : jsTruthy (jsGetField p "ref") <;>
    cases h4 : jsTruthy (jsGetField p "after") <;>
    cases h5 : jsTruthy (jsGetField p "repository") <;>
    cases h6 : jsNullish (jsGetField p "pusher") <;>
    simp [parsePushEvent, parseGuardFails, jsAccess, h1, h2, h3, h4, h5, h6]

/-! ## Deployment records and lifecycle (src/lib/db/schema.ts,
src/server/routers/deployments.ts, src/lib/deploy/worker.ts)

A `Deployment` carries the persisted columns the pipeline touches, plus two
ghost fields used only to state invariants: `buildOk` records that a build
phase for this record completed successfully (set at the
`building → deploying` write), and `fromRollback` records that the row was
inserted by the rollback mutation with a pre-populated `imageTag`. -/

inductive DeployStatus where
  | pending
  | building
  | deploying
  | live
  | failed
deriving DecidableEq

structure Deployment where
  commitSha : String
  commitMsg : Option String
  buildLogs : Option String
  imageTag : Option String
  error : Option String
  finishedAt : Option Nat
  status : DeployStatus
  buildOk : Bool
  fromRollback : Bool
deriving DecidableEq

/-- JS `s.substring(0, n)`. -/
def jsSubstring (s : String) (n : Nat) : String := ⟨s.toList.take n⟩

/-- JS falsiness of a nullable string column (`!x`: null or empty). -/
def strFalsy : Option String → Bool
  | none => true
  | some s => s = ""

/-- A freshly inserted Deployment row (webhook route and `triggerDeploy`
both insert `status: "pending"` and no `imageTag`). -/
def newDeployment (sha : String) (msg : Option String) : Deployment :=
  { commitSha := sha, commitMsg := msg, buildLogs := none, imageTag := none,
    error := none, finishedAt := none, status := DeployStatus.pending,
    buildOk := false, fromRollback := false }

inductive TrpcCode where
  | notFound
  | badRequest
  | unauthorized
deriving DecidableEq

structure TrpcError where
  code : TrpcCode
  message : Option String
deriving DecidableEq

/-- Translation of `deploymentsRouter.cancel` after the ownership lookup:
the status guard, then the update.  `Except.error` is the thrown
`TRPCError`, raised before the database update statement, so no row is
written on that path. -/
def cancelDeployment (now : Nat) (d : Deployment) : Except TrpcError Deployment :=
  if d.status ≠ DeployStatus.pending ∧ d.status ≠ DeployStatus.building then
    Except.error ⟨TrpcCode.badRequest, some "Cannot cancel deployment in current state"⟩
  else
    Except.ok { d with
      status := DeployStatus.failed
      error := some "Cancelled by user"
      finishedAt := some now }

/-- Translation of `deploymentsRouter.rollback` after the ownership lookup:
the guard `status !== "live" || !imageTag`, then the insert of the new row.
`Except.error` is the thrown `TRPCError`, raised before the insert. -/
def rollbackDeployment (d : Deployment) : Except TrpcError Deployment :=
  if d.status ≠ DeployStatus.live ∨ strFalsy d.imageTag then
    Except.error ⟨TrpcCode.badRequest,
      some "Can only rollback to successful deployments with an image"⟩
  else
    Except.ok
      { commitSha := d.commitSha,
        commitMsg := some ("Rollback to " ++ jsSubstring d.commitSha 7),
        buildLogs := none, imageTag := d.imageTag, error := none,
        finishedAt := none, status := DeployStatus.pending,
        buildOk := false, fromRollback := true }

/-- Result of `buildProject` as consumed by the worker. -/
structure BuildResultModel where
  success : Bool
  imageTag : String
  logs : String
  error : Option String
deriving DecidableEq

/-- JS `x || dflt` on a nullable string. -/
def jsOrDefault (o : Option String) (dflt : String) : String :=
  match o with
  | some s => if s = "" then dflt else s
  | none => dflt

/-- Outcomes of the external calls `processDeployment` makes, in program
order: GitHub token lookup, `buildProject`, `decryptJson`, `deployProject`,
and the best-effort DNS call (`cfConfigured` is
`user.cloudflareToken && user.cloudflareZone`; `dnsFails` is whether
`setupProjectDns` throws). -/
structure WorkerEnv where
  tokenOk : Bool
  buildResult : BuildResultModel
  decryptOk : Bool
  decryptError : String
  deploySuccess : Bool
  deployError : Option String
  cfConfigured : Bool
  dnsFails : Bool
  now : Nat
deriving DecidableEq

/-- The `catch` block of `processDeployment`: status `failed`, `error` from
the thrown message, `finishedAt` stamped. -/
def failUpdate (now : Nat) (msg : String) (d : Deployment) : Deployment :=
  { d with
    status := DeployStatus.failed
    error := some msg
    finishedAt := some now }

/-- Translation of `processDeployment` as the sequence of database writes
it issues to the Deployment row, in order.  Note the function never reads
the row's existing `imageTag`: it unconditionally writes
`status: "building"` and runs the build.  The DNS call sits inside its own
`try/catch` and issues no write, so `dnsFails` influences nothing. -/
def workerWrites (env : WorkerEnv) (d : Deployment) : List Deployment :=
  let d1 := { d with status := DeployStatus.building }
  if !env.tokenOk then
    [d1, failUpdate env.now "GitHub access token not found" d1]
  else
    let d2 := { d1 with buildLogs := some env.buildResult.logs }
    if !env.buildResult.success then
      [d1, d2, failUpdate env.now (jsOrDefault env.buildResult.error "Build failed") d2]
    else
      let d3 := { d2 with
        status := DeployStatus.deploying
        imageTag := some env.buildResult.imageTag
        buildOk := true }
      if !env.decryptOk then
        [d1, d2, d3, failUpdate env.now env.decryptError d3]
      else if !env.deploySuccess then
        [d1, d2, d3, failUpdate env.now (jsOrDefault env.deployError "Deployment failed") d3]
      else
        [d1, d2, d3, { d3 with status := DeployStatus.live, finishedAt := some env.now }]

/-- Deployment rows reachable through the operations the system performs:
insertion by the webhook route / `triggerDeploy`, insertion by `rollback`,
the `cancel` update, and each successive write of `processDeployment`. -/
inductive ReachableDeployment : Deployment → Prop where
  | created (sha : String) (msg : Option String) :
      ReachableDeployment (newDeployment sha msg)
  | rollback (d d' : Deployment) (hd : ReachableDeployment d)
      (h : rollbackDeployment d = Except.ok d') : ReachableDeployment d'
  | cancel (now : Nat) (d d' : Deployment) (hd : ReachableDeployment d)
      (h : cancelDeployment now d = Except.ok d') : ReachableDeployment d'
  | worker (env : WorkerEnv) (d w : Deployment) (hd : ReachableDeployment d)
      (hw : w ∈ workerWrites env d) : ReachableDeployment w

theorem isSome_of_strFalsy_false (o : Option String) (h : strFalsy o = false) :
    o.isSome = true := by
  cases o <;> simp_all [strFalsy]

/-- Example successful pipeline run: every external call succeeds. -/
def envSuccessEx : WorkerEnv :=
  { tokenOk := true
    buildResult :=
      { success := true, imageTag := "registry/app:abc1234", logs := "", error := none }
    decryptOk := true
    decryptError := ""
    deploySuccess := true
    deployError := none
    cfConfigured := false
    dnsFails := false
    now := 5 }

/-- The `live` row produced by running `envSuccessEx` on a fresh
deployment for commit `abc1234def`. -/
def depLiveEx : Deployment :=
  { commitSha := "abc1234def", commitMsg := none, buildLogs := some ""
    imageTag := some "registry/app:abc1234", error := none, finishedAt := some 5
    status := DeployStatus.live, buildOk := true, fromRollback := false }

/-- The row the rollback mutation inserts for `depLiveEx`. -/
def depRollbackEx : Deployment :=
  { commitSha := "abc1234def", commitMsg := some "Rollback to abc1234"
    buildLogs := none, imageTag := some "registry/app:abc1234", error := none
    finishedAt := none, status := DeployStatus.pending, buildOk := false
    fromRollback := true }

/-- Counterexample to C2: the rollback-inserted row `depRollbackEx` is
reachable, has a non-null `imageTag`, yet no build phase of its own ever
completed (its `buildOk` ghost flag is false, its status is `pending`), so
"`imageTag` is non-null iff the record's build phase completed
successfully" fails. -/
theorem claim_c2_counterexample :
    ¬ (∀ d : Deployment, ReachableDeployment d →
        (d.imageTag.isSome = true ↔ d.buildOk = true)) := by
  intro h
  have hlive : ReachableDeployment depLiveEx :=
    ReachableDeployment.worker envSuccessEx (newDeployment "abc1234def" none)
      depLiveEx (ReachableDeployment.created "abc1234def" none) (by decide)
  have hroll : ReachableDeployment depRollbackEx :=
    ReachableDeployment.rollback depLiveEx depRollbackEx hlive (by rfl)
  have hbad := h depRollbackEx hroll
  simp [depRollbackEx] at hbad

/-- Claim C2 (amended): in every reachable Deployment row, `imageTag` is
non-null iff the row's build phase completed successfully or the row was
inserted by rollback with the image pre-populated. -/
theorem claim_c2_imageTag_invariant (d : Deployment) (h : ReachableDeployment d) :
    d.imageTag.isSome = true ↔ (d.buildOk = true ∨ d.fromRollback = true) := by
  induction h with
  | created sha msg => simp [newDeployment]
  | rollback d d' hd hok ih =>
    unfold rollbackDeployment at hok
    by_cases hc : d.status ≠ DeployStatus.live ∨ strFalsy d.imageTag = true
    · rw [if_pos hc] at hok
      exact absurd hok (by simp)
    · rw [if_neg hc] at hok
      push_neg at hc
      have hsome : d.imageTag.isSome = true :=
        isSome_of_strFalsy_false _ (by simpa using hc.2)
      obtain rfl : _ = d' := by simpa using hok
      simpa using hsome
  | cancel now d d' hd hok ih =>
    unfold cancelDeployment at hok
    by_cases hc : d.status ≠ DeployStatus.pending ∧ d.status ≠ DeployStatus.building
    · rw [if_pos hc] at hok
      exact absurd hok (by simp)
    · rw [if_neg hc] at hok
      obtain rfl : _ = d' := by simpa using hok
      simpa using ih
  | worker env d w hd hw ih =>
    unfold workerWrites at hw
    by_cases h1 : env.tokenOk
    · by_cases h2 : env.buildResult.success
      · by_cases h3 : env.decryptOk
        · by_cases h4 : env.deploySuccess
          · simp only [h1, h2, h3, h4, Bool.not_true, Bool.false_eq_true,
              if_false, List.mem_cons, List.not_mem_nil, or_false] at hw
            rcases hw with rfl | rfl | rfl | rfl <;> simp [failUpdate, ih]
          · simp only [h1, h2, h3, Bool.not_true, Bool.false_eq_true, if_false,
              Bool.not_eq_true', ← Bool.not_eq_true, h4, if_true, if_neg,
              List.mem_cons, List.not_mem_nil, or_false] at hw
            rcases hw with rfl | rfl | rfl | rfl <;> simp [failUpdate, ih]
        · simp only [h1, h2, h3, Bool.not_true, Bool.false_eq_true, if_false,
            Bool.not_false, if_true, List.mem_cons, List.not_mem_nil,
            or_false] at hw
          rcases hw with rfl | rfl | rfl | rfl <;> simp [failUpdate, ih]
      · simp only [h1, h2, Bool.not_true, Bool.false_eq_true, if_false,
          Bool.not_false, if_true, List.mem_cons, List.not_mem_nil,
          or_false] at hw
        rcases hw with rfl | rfl | rfl <;> simp [failUpdate, ih]
    · simp only [h1, Bool.not_false, if_true, List.mem_cons,
        List.not_mem_nil, or_false] at hw
      rcases hw with rfl | rfl <;> simp [failUpdate, ih]

/-- Witness for the C2 invariant at a concrete reachable row. -/
theorem claim_c2_witness :
    (newDeployment "abc" none).imageTag.isSome = true ↔
      ((newDeployment "abc" none).buildOk = true
        ∨ (newDeployment "abc" none).fromRollback = true) :=
  claim_c2_imageTag_invariant (newDeployment "abc" none)
    (ReachableDeployment.created "abc" none)

/-- Claim C3: cancelling a `pending` or `building` Deployment updates it to
`failed` with error text exactly `"Cancelled by user"` (and stamps
`finishedAt`); cancelling in any other status throws a `BAD_REQUEST`
precondition error before the update statement, so no field changes. -/
theorem claim_c3_cancelDeployment (now : Nat) (d : Deployment) :
    ((d.status = DeployStatus.pending ∨ d.status = DeployStatus.building) →
      cancelDeployment now d = Except.ok { d with
        status := DeployStatus.failed
        error := some "Cancelled by user"
        finishedAt := some now })
    ∧ (d.status ≠ DeployStatus.pending → d.status ≠ DeployStatus.building →
      cancelDeployment now d = Except.error
        ⟨TrpcCode.badRequest, some "Cannot cancel deployment in current state"⟩) := by
  constructor
  · intro h
    unfold cancelDeployment
    rcases h with h | h <;> simp [h]
  · intro h1 h2
    unfold cancelDeployment
    simp [h1, h2]

/-- Witness for C3: cancel succeeds on a fresh `pending` row and is
rejected on a `live` row. -/
theorem claim_c3_witness :
    cancelDeployment 7 (newDeployment "abc" none) = Except.ok
      { newDeployment "abc" none with
        status := DeployStatus.failed
        error := some "Cancelled by user"
        finishedAt := some 7 }
    ∧ cancelDeployment 7 depLiveEx = Except.error
        ⟨TrpcCode.badRequest, some "Cannot cancel deployment in current state"⟩ :=
  ⟨(claim_c3_cancelDeployment 7 (newDeployment "abc" none)).1 (Or.inl rfl),
    (claim_c3_cancelDeployment 7 depLiveEx).2 (by decide) (by decide)⟩

/-- Evaluation for C4 at the failing input: `depRollbackEx` is the row the
rollback mutation inserts, with `imageTag` already resolved; yet
`processDeployment` run on it still enters the build phase — its first
database write sets `status: "building"`, not `"deploying"`, and the
build-phase writes are present on every path. -/
theorem claim_c4_build_not_skipped :
    depRollbackEx.imageTag.isSome = true
    ∧ (workerWrites envSuccessEx depRollbackEx).head? =
        some { depRollbackEx with status := DeployStatus.building }
    ∧ ∀ env : WorkerEnv, { depRollbackEx with status := DeployStatus.building } ∈
        workerWrites env depRollbackEx := by
  refine ⟨rfl, rfl, ?_⟩
  intro env
  unfold workerWrites
  by_cases h1 : env.tokenOk <;> by_cases h2 : env.buildResult.success <;>
    by_cases h3 : env.decryptOk <;> by_cases h4 : env.deploySuccess <;>
    simp [h1, h2, h3, h4]

/-- Claim C5: whenever the token is found, the build succeeds, the env-var
decryption succeeds and provisioning succeeds, the worker's write sequence
is exactly `building`, build-logs, `deploying`+`imageTag`, and a final
`live` write with `finishedAt` stamped and `error` untouched — and that
sequence does not depend on the DNS outcome (`dnsFails`) or on whether DNS
is configured at all, because `setupProjectDns` errors are caught and
swallowed without any database write. -/
theorem claim_c5_dns_best_effort (env : WorkerEnv) (d : Deployment)
    (h1 : env.tokenOk = true) (h2 : env.buildResult.success = true)
    (h3 : env.decryptOk = true) (h4 : env.deploySuccess = true) :
    (∀ b c : Bool,
      workerWrites { env with dnsFails := b, cfConfigured := c } d = workerWrites env d)
    ∧ workerWrites env d =
        [{ d with status := DeployStatus.building },
         { d with status := DeployStatus.building, buildLogs := some env.buildResult.logs },
         { d with
            status := DeployStatus.deploying
            buildLogs := some env.buildResult.logs
            imageTag := some env.buildResult.imageTag
            buildOk := true },
         { d with
            status := DeployStatus.live
            buildLogs := some env.buildResult.logs
            imageTag := some env.buildResult.imageTag
            buildOk := true
            finishedAt := some env.now }] := by
  constructor
  · intro b c
    simp [workerWrites]
  · simp [workerWrites, h1, h2, h3, h4]

/-- Witness for C5: the fully successful concrete run, with `dnsFails`
flipped, still ends `live` with the same writes. -/
theorem claim_c5_witness :
    workerWrites { envSuccessEx with dnsFails := true, cfConfigured := true }
        (newDeployment "abc1234def" none)
      = workerWrites envSuccessEx (newDeployment "abc1234def" none)
    ∧ (workerWrites envSuccessEx (newDeployment "abc1234def" none)).getLast? =
        some depLiveEx := by
  obtain ⟨hdns, hlist⟩ :=
    claim_c5_dns_best_effort envSuccessEx (newDeployment "abc1234def" none)
      rfl rfl rfl rfl
  refine ⟨hdns true true, ?_⟩
  rw [hlist]
  rfl

/-! ## `buildProject` (src/lib/builder/index.ts)

The working directory `/tmp/autotunchi-builds/<uuid>` is the scoped
resource of claim C7.  The file system is modelled by a single bit: does
the per-build working directory exist.  The external steps (`mkdir`,
GitHub tarball download, `tar` extraction, the Dockerfile probe, and each
`docker`/`pack` subprocess) are oracle outcomes in `BuildEnv`;
`runCommand` itself never rejects (it resolves `success: false` on spawn
errors), so subprocess outcomes are plain results. -/

structure CmdResult where
  success : Bool
  logs : String
deriving DecidableEq

structure BuildEnv where
  buildId : String
  mkdirResult : Except String Unit
  downloadResult : Except String Nat
  extractOk : Bool
  extractErr : String
  hasDockerfileResult : Except String Bool
  haveCreds : Bool
  loginResult : CmdResult
  dockerBuildResult : CmdResult
  dockerPushResult : CmdResult
  packResult : CmdResult

/-- Translation of `buildWithDockerfile` (logs concatenated with the
labelled headers of the source; short-circuit on login/build failure). -/
def buildWithDockerfile (env : BuildEnv) : CmdResult :=
  if env.haveCreds then
    let logs0 := "=== Docker Login ===\n" ++ env.loginResult.logs ++ "\n"
    if !env.loginResult.success then { success := false, logs := logs0 }
    else
      let logs1 := logs0 ++ "\n=== Docker Build ===\n" ++ env.dockerBuildResult.logs ++ "\n"
      if !env.dockerBuildResult.success then { success := false, logs := logs1 }
      else
        { success := env.dockerPushResult.success
          logs := logs1 ++ "\n=== Docker Push ===\n" ++ env.dockerPushResult.logs ++ "\n" }
  else
    let logs0 := "=== Skipping Docker Login (no credentials) ===\n"
    let logs1 := logs0 ++ "\n=== Docker Build ===\n" ++ env.dockerBuildResult.logs ++ "\n"
    if !env.dockerBuildResult.success then { success := false, logs := logs1 }
    else
      { success := env.dockerPushResult.success
        logs := logs1 ++ "\n=== Docker Push ===\n" ++ env.dockerPushResult.logs ++ "\n" }

/-- Translation of `buildWithBuildpacks`. -/
def buildWithBuildpacks (env : BuildEnv) : CmdResult :=
  { success := env.packResult.success
    logs := "=== Pack Build ===\n" ++ env.packResult.logs ++ "\n" }

/-- The `try`/`catch` body of `buildProject`: the returned `BuildResult`
and whether the working directory exists when the body finishes (i.e.
right before the `finally` cleanup runs). -/
def buildProjectTry (env : BuildEnv) (registryUrl projectSlug commitSha : String) :
    BuildResultModel × Bool :=
  let imageTag := registryUrl ++ "/" ++ projectSlug ++ ":" ++ jsSubstring commitSha 7
  match env.mkdirResult with
  | Except.error e =>
    ({ success := false, imageTag := imageTag
       logs := "" ++ "\n=== Error ===\n" ++ e ++ "\n", error := some e }, false)
  | Except.ok _ =>
    let logs0 := "=== Downloading source ===\n"
    match env.downloadResult with
    | Except.error e =>
      ({ success := false, imageTag := imageTag
         logs := logs0 ++ "\n=== Error ===\n" ++ e ++ "\n", error := some e }, true)
    | Except.ok n =>
      let logs1 := logs0 ++ "Downloaded " ++ toString n ++ " bytes\n"
      if !env.extractOk then
        let e := "Failed to extract tarball: " ++ env.extractErr
        ({ success := false, imageTag := imageTag
           logs := logs1 ++ "\n=== Error ===\n" ++ e ++ "\n", error := some e }, true)
      else
        let logs2 := logs1 ++ "Extracted to "
          ++ ("/tmp/autotunchi-builds/" ++ env.buildId) ++ "\n"
        match env.hasDockerfileResult with
        | Except.error e =>
          ({ success := false, imageTag := imageTag
             logs := logs2 ++ "\n=== Error ===\n" ++ e ++ "\n", error := some e }, true)
        | Except.ok useDockerfile =>
          let logs3 := logs2 ++ "\n=== Build Strategy: "
            ++ (if useDockerfile then "Dockerfile" else "Buildpacks") ++ " ===\n"
          let buildResult :=
            if useDockerfile then buildWithDockerfile env else buildWithBuildpacks env
          ({ success := buildResult.success, imageTag := imageTag
             logs := logs3 ++ buildResult.logs
             error := if buildResult.success then none else some "Build failed" }, true)

/-- Node `rm(workDir, { recursive: true, force: true })`: removes the
directory whether or not it exists; the source additionally swallows any
`rm` error. -/
def rmRecursiveForce (_dirExists : Bool) : Bool := false

structure BuildOutcome where
  result : BuildResultModel
  workDirExists : Bool

/-- Translation of `buildProject`: run the `try`/`catch` body, then the
`finally` block removes the working directory on every exit path. -/
def buildProject (env : BuildEnv) (registryUrl projectSlug commitSha : String) :
    BuildOutcome :=
  let t := buildProjectTry env registryUrl projectSlug commitSha
  { result := t.1, workDirExists := rmRecursiveForce t.2 }

/-- Claim C7: on every outcome of every external step — download, extract
or Dockerfile-probe failure, any subprocess failure, or full success — the
per-build working directory is gone when `buildProject` returns; and the
cleanup is not vacuous: whenever `mkdir` succeeded, the directory still
exists at the end of the `try` body, on failure paths included, so only
the `finally` clause removes it. -/
theorem claim_c7_buildProject_cleanup (env : BuildEnv)
    (registryUrl projectSlug commitSha : String) :
    (buildProject env registryUrl projectSlug commitSha).workDirExists = false
    ∧ (buildProjectTry env registryUrl projectSlug commitSha).2 = env.mkdirResult.isOk := by
  refine ⟨rfl, ?_⟩
  unfold buildProjectTry
  cases h1 : env.mkdirResult with
  | error e => simp [Except.isOk, Except.toBool]
  | ok u =>
    simp only [Except.isOk, Except.toBool]
    cases h2 : env.downloadResult with
    | error e => simp
    | ok n =>
      by_cases h3 : env.extractOk
      · cases h4 : env.hasDockerfileResult <;> simp [h3]
      · simp [h3]

/-! ## `parseResourceValue` (src/lib/k8s/metrics.ts)

JS `parseInt(x, 10)` and `NaN` are modelled with `Option Int` (`none` is
`NaN`); the returned quantity is a rational so the `"n"` branch's division
by 1 000 000 stays exact (the claims never exercise that branch, where JS
uses binary floating point). -/

/-- Decimal digit, as matched by `parseInt`. -/
def jsIsDigit (c : Char) : Bool := 48 ≤ c.toNat && c.toNat ≤ 57

/-- The character class of the JS regex `[a-zA-Z]`. -/
def jsIsAsciiLetter (c : Char) : Bool :=
  (65 ≤ c.toNat && c.toNat ≤ 90) || (97 ≤ c.toNat && c.toNat ≤ 122)

/-- White space skipped by `parseInt`. -/
def isJsSpace (c : Char) : Bool :=
  c.toNat = 32 || c.toNat = 9 || c.toNat = 10 || c.toNat = 13
    || c.toNat = 11 || c.toNat = 12 || c.toNat = 160

/-- Value of a digit run. -/
def digitsToNat (l : List Char) : Nat :=
  l.foldl (fun acc c => acc * 10 + (c.toNat - 48)) 0

/-- Optional sign consumed by `parseInt` after white space. -/
def jsParseIntAux : List Char → (Int × List Char)
  | [] => (1, [])
  | c :: r =>
    if c = '-' then (-1, r) else if c = '+' then (1, r) else (1, c :: r)

/-- JS `parseInt(s, 10)`: skip white space, optional sign, then the
longest digit run; `NaN` (here `none`) when the run is empty. -/
def jsParseInt (s : String) : Option Int :=
  let l := s.toList.dropWhile isJsSpace
  let sl := jsParseIntAux l
  let ds := sl.2.takeWhile jsIsDigit
  if ds.isEmpty then none else some (sl.1 * (digitsToNat ds : Int))

/-- JS `value.slice(0, -1)`. -/
def jsSliceDropLast (s : String) : String := ⟨s.toList.dropLast⟩

/-- JS `value.endsWith(suffix)`. -/
def jsEndsWith (s suf : String) : Bool :=
  decide (s.toList.reverse.take suf.toList.length = suf.toList.reverse)

/-- JS `value.match(/[a-zA-Z]/)` is non-null. -/
def jsHasAlpha (s : String) : Bool := s.toList.any jsIsAsciiLetter

/-- Translation of `parseResourceValue(value)`; `none` is a `NaN` return
value. -/
def parseResourceValue (value : String) : Option ℚ :=
  if value = "" then some 0
  else if jsEndsWith value "m" then
    (jsParseInt (jsSliceDropLast value)).map (fun v => (v : ℚ))
  else if jsEndsWith value "n" then
    (jsParseInt (jsSliceDropLast value)).map (fun v => (v : ℚ) / 1000000)
  else
    let numValue := jsParseInt value
    if jsEndsWith value "Ki" then numValue.map (fun v => (v : ℚ) * 1024)
    else if jsEndsWith value "Mi" then numValue.map (fun v => (v : ℚ) * 1024 * 1024)
    else if jsEndsWith value "Gi" then
      numValue.map (fun v => (v : ℚ) * 1024 * 1024 * 1024)
    else if jsEndsWith value "Ti" then
      numValue.map (fun v => (v : ℚ) * 1024 * 1024 * 1024 * 1024)
    else
      match numValue with
      | some v =>
        if !jsHasAlpha value then
          if v < 1000 then some ((v : ℚ) * 1000) else some (v : ℚ)
        else some (v : ℚ)
      | none => some 0

theorem jsIsDigit_not_letter (c : Char) (h : jsIsDigit c = true) :
    jsIsAsciiLetter c = false := by
  simp [jsIsDigit, jsIsAsciiLetter] at *
  omega

theorem jsIsDigit_not_space (c : Char) (h : jsIsDigit c = true) :
    isJsSpace c = false := by
  simp [jsIsDigit, isJsSpace] at *
  omega

theorem jsIsDigit_ne (c : Char) (h : jsIsDigit c = true) (d : Char)
    (hd : jsIsDigit d = false) : c ≠ d := by
  intro he
  subst he
  rw [h] at hd
  simp at hd

theorem takeWhile_of_all {α : Type} (p : α → Bool) (l : List α)
    (h : ∀ a ∈ l, p a = true) : l.takeWhile p = l := by
  induction l with
  | nil => rfl
  | cons a t ih =>
    simp [List.takeWhile_cons, h a (List.mem_cons_self a t),
      ih fun x hx => h x (List.mem_cons_of_mem _ hx)]

theorem jsEndsWith_digits_false (s : String) (hne : s.toList ≠ [])
    (hd : ∀ c ∈ s.toList, jsIsDigit c = true) (suf : String)
    (hs : suf.toList ≠ []) (hsd : ∀ c ∈ suf.toList, jsIsDigit c = false) :
    jsEndsWith s suf = false := by
  unfold jsEndsWith
  simp only [decide_eq_false_iff_not]
  intro heq
  have h1 : s.toList.reverse ≠ [] := by simpa using hne
  have h2 : suf.toList.reverse ≠ [] := by simpa using hs
  obtain ⟨a, t, hat⟩ := List.exists_cons_of_ne_nil h1
  obtain ⟨b, t', hbt⟩ := List.exists_cons_of_ne_nil h2
  have ha : a ∈ s.toList := by
    have hm : a ∈ s.toList.reverse := hat ▸ List.mem_cons_self _ _
    simpa using hm
  have hb : b ∈ suf.toList := by
    have hm : b ∈ suf.toList.reverse := hbt ▸ List.mem_cons_self _ _
    simpa using hm
  have hlen : suf.toList.length = t'.length + 1 := by
    rw [← List.length_reverse, hbt, List.length_cons]
  rw [hlen, hat, hbt, List.take_succ_cons] at heq
  have hab : a = b := (List.cons.injEq _ _ _ _ ▸ heq :
    a = b ∧ t.take t'.length = t').1
  have hda := hd a ha
  rw [hab, hsd b hb] at hda
  simp at hda

theorem jsParseInt_all_digits (s : String) (hne : s.toList ≠ [])
    (hd : ∀ c ∈ s.toList, jsIsDigit c = true) :
    jsParseInt s = some ((digitsToNat s.toList : Int)) := by
  obtain ⟨c, rest, hcr⟩ := List.exists_cons_of_ne_nil hne
  have hcd : jsIsDigit c = true := hd c (hcr ▸ List.mem_cons_self _ _)
  have hcs : isJsSpace c = false := jsIsDigit_not_space c hcd
  have hcm : c ≠ '-' := jsIsDigit_ne c hcd '-' (by decide)
  have hcp : c ≠ '+' := jsIsDigit_ne c hcd '+' (by decide)
  have htake : (c :: rest).takeWhile jsIsDigit = c :: rest :=
    takeWhile_of_all _ _ (hcr ▸ hd)
  unfold jsParseInt
  rw [hcr]
  simp [List.dropWhile_cons, hcs, jsParseIntAux, hcm, hcp, htake]

/-- Claim C9: `"500m"` parses to 500 millicores, `"512Mi"` to
512·1024·1024 bytes, and every unitless digit string whose value is below
the small-number threshold 1000 parses to value·1000 millicores, all in
exact arithmetic. -/
theorem claim_c9_parseResourceValue :
    parseResourceValue "500m" = some 500
    ∧ parseResourceValue "512Mi" = some (512 * 1024 * 1024)
    ∧ (∀ s : String, s.toList ≠ [] → (∀ c ∈ s.toList, jsIsDigit c = true) →
        digitsToNat s.toList < 1000 →
        parseResourceValue s = some ((digitsToNat s.toList : ℚ) * 1000)) := by
  refine ⟨?_, ?_, ?_⟩
  · have h : jsParseInt (jsSliceDropLast "500m") = some 500 := by decide
    have hm : jsEndsWith "500m" "m" = true := by decide
    have hne : ("500m" : String) ≠ "" := by decide
    simp [parseResourceValue, hne, hm, h]
  · have h : jsParseInt "512Mi" = some 512 := by decide
    have h1 : jsEndsWith "512Mi" "m" = false := by decide
    have h2 : jsEndsWith "512Mi" "n" = false := by decide
    have h3 : jsEndsWith "512Mi" "Ki" = false := by decide
    have h4 : jsEndsWith "512Mi" "Mi" = true := by decide
    have hne : ("512Mi" : String) ≠ "" := by decide
    simp [parseResourceValue, hne, h1, h2, h3, h4, h]
  · intro s hne hd hlt
    have hsne : s ≠ "" := fun h => hne (by rw [h]; rfl)
    have hm := jsEndsWith_digits_false s hne hd "m" (by decide) (by decide)
    have hn := jsEndsWith_digits_false s hne hd "n" (by decide) (by decide)
    have hki := jsEndsWith_digits_false s hne hd "Ki" (by decide) (by decide)
    have hmi := jsEndsWith_digits_false s hne hd "Mi" (by decide) (by decide)
    have hgi := jsEndsWith_digits_false s hne hd "Gi" (by decide) (by decide)
    have hti := jsEndsWith_digits_false s hne hd "Ti" (by decide) (by decide)
    have hp := jsParseInt_all_digits s hne hd
    have halpha : jsHasAlpha s = false := by
      unfold jsHasAlpha
      simp only [List.any_eq_false]
      intro c hc
      simp [jsIsDigit_not_letter c (hd c hc)]
    unfold parseResourceValue
    rw [if_neg hsne, hm, hn, hki, hmi, hgi, hti]
    simp only [Bool.false_eq_true, if_false, hp, halpha, Bool.not_false, if_true]
    rw [if_pos (show (digitsToNat s.toList : Int) < 1000 by exact_mod_cast hlt)]
    push_cast
    ring_nf

/-- Witness for C9's unitless case at the concrete string `"5"`. -/
theorem claim_c9_witness :
    parseResourceValue "5" = some ((digitsToNat "5".toList : ℚ) * 1000) :=
  claim_c9_parseResourceValue.2.2 "5" (by decide) (by decide) (by decide)

/-! ## Webhook route (src/app/api/webhooks/github/route.ts) and
`triggerDeploy` commit-message truncation (src/server/routers/projects.ts) -/

/-- The `commitMsg` value the route computes:
`parsedEvent.head_commit?.message?.substring(0, 500) || null`.
`Except.error` is the `TypeError` thrown when `head_commit.message` is a
truthy non-string (`.substring` is not a function there); it is caught by
the route's outer `try` before any insert. -/
def webhookCommitMsg (headCommit : Option (JsValue × JsValue)) :
    Except Unit (Option String) :=
  match headCommit with
  | none => Except.ok none
  | some (_, msg) =>
    match msg with
    | JsValue.undefV => Except.ok none
    | JsValue.nullV => Except.ok none
    | JsValue.strV s =>
      Except.ok (if jsSubstring s 500 = "" then none else some (jsSubstring s 500))
    | _ => Except.error ()

/-- The `commitMsg` value `triggerDeploy` stores:
`commit.message.substring(0, 500)`. -/
def triggerCommitMsg (message : String) : String := jsSubstring message 500

inductive RoutePhase where
  | parseRun
  | verifyRun
  | createRun
deriving DecidableEq

inductive RouteResponse where
  | ignored
  | invalidPayload
  | notBranchPush
  | noProject
  | unauthorized
  | created
  | serverError
deriving DecidableEq

structure ProjectRec where
  id : String
  repoFullName : String
  branch : String
  webhookSecret : String
deriving DecidableEq

/-- The Deployment row the route inserts (`commitSha` holds the unchecked
`parsedEvent.after` value). -/
structure WebhookDep where
  projectId : String
  commitSha : JsValue
  commitMsg : Option String
  status : DeployStatus

/-- Translation of the route's `POST` handler.  Inputs: the two headers,
the raw body text, the `JSON.parse` outcome (`none` = parse threw, caught
by the outer `try`), and the projects table.  Output: the response, the
deployments table after the request, and the trace of the three phases the
claim orders (event parsing, signature verification, record creation).
A thrown error anywhere is caught by the outer `try` and answered with a
500, creating nothing. -/
def webhookPost (hmac : String → String → List Nat) (eventHeader : Option String)
    (rawBody : String) (jsonBody : Option JsValue) (sigHeader : Option String)
    (projectsDb : List ProjectRec) (deps : List WebhookDep) :
    RouteResponse × List WebhookDep × List RoutePhase :=
  if eventHeader ≠ some "push" then (RouteResponse.ignored, deps, [])
  else
    match jsonBody with
    | none => (RouteResponse.serverError, deps, [])
    | some payload =>
      match parsePushEvent payload with
      | Except.error _ => (RouteResponse.serverError, deps, [RoutePhase.parseRun])
      | Except.ok none => (RouteResponse.invalidPayload, deps, [RoutePhase.parseRun])
      | Except.ok (some ev) =>
        match ev.ref with
        | JsValue.strV refStr =>
          match extractBranchFromRef refStr with
          | none => (RouteResponse.notBranchPush, deps, [RoutePhase.parseRun])
          | some branch =>
            match ev.repositoryFullName with
            | JsValue.strV fullName =>
              match projectsDb.find?
                  (fun p => p.repoFullName == fullName && p.branch == branch) with
              | none => (RouteResponse.noProject, deps, [RoutePhase.parseRun])
              | some project =>
                if verifyWebhookSignature hmac rawBody sigHeader project.webhookSecret then
                  match webhookCommitMsg ev.headCommit with
                  | Except.error _ =>
                    (RouteResponse.serverError, deps,
                      [RoutePhase.parseRun, RoutePhase.verifyRun])
                  | Except.ok msg =>
                    (RouteResponse.created,
                      deps ++ [{ projectId := project.id
                                 commitSha := ev.after
                                 commitMsg := msg
                                 status := DeployStatus.pending }],
                      [RoutePhase.parseRun, RoutePhase.verifyRun, RoutePhase.createRun])
                else
                  (RouteResponse.unauthorized, deps,
                    [RoutePhase.parseRun, RoutePhase.verifyRun])
            | _ => (RouteResponse.serverError, deps, [RoutePhase.parseRun])
        | _ => (RouteResponse.serverError, deps, [RoutePhase.parseRun])

/-- Claim C6 as stated: on every request, signature verification runs before
event parsing (whenever parsing runs at all, verification already ran). -/
def signatureFirstOrder : Prop :=
  ∀ (hmac : String → String → List Nat) (eventHeader : Option String)
    (rawBody : String) (jsonBody : Option JsValue) (sigHeader : Option String)
    (projectsDb : List ProjectRec) (deps : List WebhookDep),
    RoutePhase.parseRun ∈
        (webhookPost hmac eventHeader rawBody jsonBody sigHeader projectsDb deps).2.2 →
      RoutePhase.verifyRun ∈
          (webhookPost hmac eventHeader rawBody jsonBody sigHeader projectsDb deps).2.2
        ∧ (webhookPost hmac eventHeader rawBody jsonBody sigHeader projectsDb deps).2.2.indexOf
              RoutePhase.verifyRun <
            (webhookPost hmac eventHeader rawBody jsonBody sigHeader projectsDb deps).2.2.indexOf
              RoutePhase.parseRun

/-- Counterexample to C6's ordering: a push request whose body is not a
valid push object (and which carries no signature header at all) is
answered `400 Invalid payload` — event parsing ran and rejected the
request before signature verification was ever attempted, so verification
does not precede parsing. -/
theorem claim_c6_counterexample : ¬ signatureFirstOrder := by
  intro h
  have h2 := h c1HmacEx (some "push") "body" (some (JsValue.strV "x")) none [] []
  have h3 := h2 (by decide)
  exact absurd h3.1 (by decide)

/-- Claim C6 (amended): the route's actual order is event parsing, then
signature verification, then record creation (every trace is a prefix of
parse–verify–create); a request whose signature does not verify is
answered `401 unauthorized` with the deployments table unchanged; and
whenever a Deployment row is created, the full parse–verify–create trace
ran and the signature verified against a stored project's secret. -/
theorem claim_c6_webhook_order (hmac : String → String → List Nat)
    (eventHeader : Option String) (rawBody : String) (jsonBody : Option JsValue)
    (sigHeader : Option String) (projectsDb : List ProjectRec)
    (deps : List WebhookDep) :
    ((webhookPost hmac eventHeader rawBody jsonBody sigHeader projectsDb deps).2.2 = []
      ∨ (webhookPost hmac eventHeader rawBody jsonBody sigHeader projectsDb deps).2.2 =
          [RoutePhase.parseRun]
      ∨ (webhookPost hmac eventHeader rawBody jsonBody sigHeader projectsDb deps).2.2 =
          [RoutePhase.parseRun, RoutePhase.verifyRun]
      ∨ (webhookPost hmac eventHeader rawBody jsonBody sigHeader projectsDb deps).2.2 =
          [RoutePhase.parseRun, RoutePhase.verifyRun, RoutePhase.createRun])
    ∧ ((webhookPost hmac eventHeader rawBody jsonBody sigHeader projectsDb deps).1 =
          RouteResponse.unauthorized →
        (webhookPost hmac eventHeader rawBody jsonBody sigHeader projectsDb deps).2.1 = deps)
    ∧ ((webhookPost hmac eventHeader rawBody jsonBody sigHeader projectsDb deps).2.1 ≠ deps →
        (webhookPost hmac eventHeader rawBody jsonBody sigHeader projectsDb deps).1 =
            RouteResponse.created
          ∧ (webhookPost hmac eventHeader rawBody jsonBody sigHeader projectsDb deps).2.2 =
              [RoutePhase.parseRun, RoutePhase.verifyRun, RoutePhase.createRun]
          ∧ ∃ p ∈ projectsDb,
              verifyWebhookSignature hmac rawBody sigHeader p.webhookSecret = true) := by
  unfold webhookPost
  split
  · simp
  · split
    · simp
    · split
      · simp
      · simp
      · split
        · split
          · simp
          · split
            · split
              · simp
              · split
                · split
                  · simp
                  · exact ⟨by simp, by simp, fun _ =>
                      ⟨rfl, rfl, _, List.mem_of_find?_eq_some (by assumption),
                        by assumption⟩⟩
                · simp
            · simp
        · simp

def c6ProjectEx : ProjectRec :=
  { id := "p1", repoFullName := "o/r", branch := "main", webhookSecret := "sec" }

def c6PayloadEx : JsValue :=
  JsValue.objV [("ref", JsValue.strV "refs/heads/main"),
    ("after", JsValue.strV "abc123"),
    ("repository", JsValue.objV [("full_name", JsValue.strV "o/r")]),
    ("pusher", JsValue.objV [("name", JsValue.strV "u"), ("email", JsValue.strV "e")])]

/-- Witness for C6 (amended) on a fully successful request: a correctly
signed push to a matching project is answered `created`, with the
parse–verify–create trace and a verifying stored secret. -/
theorem claim_c6_witness :
    (webhookPost c1HmacEx (some "push") "body" (some c6PayloadEx)
        (some "sha256=001bff80") [c6ProjectEx] []).1 = RouteResponse.created
    ∧ (webhookPost c1HmacEx (some "push") "body" (some c6PayloadEx)
        (some "sha256=001bff80") [c6ProjectEx] []).2.2 =
        [RoutePhase.parseRun, RoutePhase.verifyRun, RoutePhase.createRun]
    ∧ ∃ p ∈ [c6ProjectEx],
        verifyWebhookSignature c1HmacEx "body" (some "sha256=001bff80")
          p.webhookSecret = true := by
  refine (claim_c6_webhook_order c1HmacEx (some "push") "body" (some c6PayloadEx)
      (some "sha256=001bff80") [c6ProjectEx] []).2.2 ?_
  intro heq
  rw [show (webhookPost c1HmacEx (some "push") "body" (some c6PayloadEx)
      (some "sha256=001bff80") [c6ProjectEx] []).2.1 =
      [{ projectId := "p1"
         commitSha := JsValue.strV "abc123"
         commitMsg := none
         status := DeployStatus.pending }] from rfl] at heq
  simp at heq

theorem jsSubstring_length_le (s : String) (n : Nat) :
    (jsSubstring s n).length ≤ n := by
  unfold jsSubstring
  show (s.toList.take n).length ≤ n
  rw [List.length_take]
  exact Nat.min_le_left _ _

theorem webhookCommitMsg_le (hc : Option (JsValue × JsValue)) (r : Option String)
    (h : webhookCommitMsg hc = Except.ok r) : ∀ m ∈ r, m.length ≤ 500 := by
  intro m hm
  cases hc with
  | none =>
    simp [webhookCommitMsg] at h
    subst h
    simp at hm
  | some pr =>
    obtain ⟨idv, msg⟩ := pr
    cases msg <;> simp [webhookCommitMsg] at h
    case undefV =>
      subst h
      simp at hm
    case nullV =>
      subst h
      simp at hm
    case strV s =>
      by_cases hemp : jsSubstring s 500 = ""
      · rw [if_pos hemp] at h
        subst h
        simp at hm
      · rw [if_neg hemp] at h
        subst h
        have hms : jsSubstring s 500 = m := by simpa using hm
        rw [← hms]
        exact jsSubstring_length_le s 500

/-- Claim C10 as stated for the webhook path: whenever the push carries a
head-commit message string, the stored `commitMsg` is exactly its first
500 characters. -/
def commitMsgExact : Prop :=
  ∀ (idv : JsValue) (s : String),
    webhookCommitMsg (some (idv, JsValue.strV s)) =
      Except.ok (some (jsSubstring s 500))

/-- Counterexample to C10: a push whose head-commit message is the empty
string carries a head-commit message, yet the route's `|| null` stores
`null` rather than the (empty) truncation. -/
theorem claim_c10_counterexample : ¬ commitMsgExact := by
  intro h
  have h2 := h JsValue.undefV ""
  rw [show webhookCommitMsg (some (JsValue.undefV, JsValue.strV "")) =
      Except.ok none from rfl] at h2
  simp at h2

/-- Claim C10 (amended): both creation paths bound `commitMsg` by 500
characters — `triggerDeploy` stores exactly the 500-character truncation,
the webhook route stores the truncation when it is non-empty and `null`
when the message is absent or empty — and every row the route inserts obeys
the 500-character bound. -/
theorem claim_c10_commitMsg_truncation :
    (∀ s : String, (triggerCommitMsg s).length ≤ 500)
    ∧ (∀ (hc : Option (JsValue × JsValue)) (r : Option String),
        webhookCommitMsg hc = Except.ok r → ∀ m ∈ r, m.length ≤ 500)
    ∧ (∀ (idv : JsValue) (s : String),
        webhookCommitMsg (some (idv, JsValue.strV s)) =
          Except.ok (if jsSubstring s 500 = "" then none else some (jsSubstring s 500)))
    ∧ (∀ (hmac : String → String → List Nat) (eventHeader : Option String)
        (rawBody : String) (jsonBody : Option JsValue) (sigHeader : Option String)
        (projectsDb : List ProjectRec) (deps : List WebhookDep),
        ∀ w ∈ (webhookPost hmac eventHeader rawBody jsonBody sigHeader projectsDb deps).2.1,
          w ∈ deps ∨ ∀ m ∈ w.commitMsg, m.length ≤ 500) := by
  refine ⟨fun s => jsSubstring_length_le s 500, webhookCommitMsg_le,
    fun idv s => rfl, ?_⟩
  intro hmac eventHeader rawBody jsonBody sigHeader projectsDb deps w hw
  unfold webhookPost at hw
  split at hw
  · exact Or.inl hw
  · split at hw
    · exact Or.inl hw
    · split at hw
      · exact Or.inl hw
      · exact Or.inl hw
      · split at hw
        · split at hw
          · exact Or.inl hw
          · split at hw
            · split at hw
              · exact Or.inl hw
              · split at hw
                · split at hw
                  · exact Or.inl hw
                  · rcases List.mem_append.mp hw with hin | hone
                    · exact Or.inl hin
                    · right
                      obtain rfl : w = _ := List.mem_singleton.mp hone
                      exact webhookCommitMsg_le _ _ (by assumption)
                · exact Or.inl hw
            · exact Or.inl hw
        · exact Or.inl hw

/-- Witness for C10 (amended) on a concrete short message. -/
theorem claim_c10_witness :
    (triggerCommitMsg "hello").length ≤ 500 ∧ ("hello" : String).length ≤ 500 :=
  ⟨claim_c10_commitMsg_truncation.1 "hello",
    claim_c10_commitMsg_truncation.2.1 (some (JsValue.undefV, JsValue.strV "hello"))
      (some "hello") rfl "hello" rfl⟩
